import Mathlib

/-!
Verification of the svc-indexer indexing and structural-analysis engine.

Strings are modelled as lists of characters (`Str`). JavaScript string
operations (`toLowerCase`, `includes`, `split`, …) are translated into
executable Lean functions over `Str`. JavaScript numbers appearing here are
non-negative integer counters and sizes, modelled as `Nat` (with `Int` where a
caller may supply a negative value).
-/

namespace SvcIndexer

/-- Character-list strings, so that all operations compute by `decide`. -/
abbrev Str := List Char

/-- JavaScript `String.prototype.toLowerCase` (ASCII case folding). -/
def toLowerStr (s : Str) : Str := s.map Char.toLower

/-- JavaScript `String.prototype.includes`: `sub` occurs contiguously in `s`. -/
def containsSub : Str → Str → Bool
  | s, sub => sub.isPrefixOf s || (match s with | [] => false | _ :: t => containsSub t sub)

/-- JavaScript `String.prototype.split(sep)` for a one-character separator. -/
def splitSep (sep : Char) : Str → List Str
  | [] => [[]]
  | c :: rest =>
      if c = sep then [] :: splitSep sep rest
      else match splitSep sep rest with
        | [] => [[c]]
        | h :: t => (c :: h) :: t

/-- Word characters for the JavaScript regex `\b` boundary. -/
def isWordChar (c : Char) : Bool := c.isAlphanum || c = '_'

def isWordOpt : Option Char → Bool
  | none => false
  | some c => isWordChar c

/-- Number of UTF-8 bytes of a string (`Buffer.byteLength(s, 'utf8')`). -/
def utf8Len (s : Str) : Nat := (s.map Char.utf8Size).sum

/-- Number of positions (including both string ends) at which the regex `\b`
word-boundary assertion holds. `content.match(/\b?\b/gi)` — the translation of
the keyword `?` through `new RegExp('\\b' + kw + '\\b', 'gi')`, where `\b?`
is an optional `\b` — yields one empty match per such position. -/
def boundaryCountGo (prevW : Bool) : Str → Nat
  | [] => if prevW then 1 else 0
  | c :: rest =>
      (if prevW != isWordChar c then 1 else 0) + boundaryCountGo (isWordChar c) rest

def boundaryCount (content : Str) : Nat := boundaryCountGo false content

/-- Count of case-insensitive occurrences of `kw` in `content` that are
flanked by `\b` word boundaries: `(content.match(/\bkw\b/gi) || []).length`
for a keyword `kw` whose matches cannot overlap (true of every keyword the
scorers use: they are either all word characters, or `&&`/`||`, whose
boundary conditions preclude overlapping matches). -/
def countTokenGo (kwL : Str) (kwFirst kwLast : Char) (prevW : Bool) : Str → Nat
  | [] => 0
  | c :: rest =>
      let hit := kwL.isPrefixOf (toLowerStr (c :: rest))
        && (prevW != isWordChar kwFirst)
        && (isWordChar kwLast != isWordOpt (((c :: rest).drop kwL.length).head?))
      (if hit then 1 else 0) + countTokenGo kwL kwFirst kwLast (isWordChar c) rest

def countToken (content kw : Str) : Nat :=
  match toLowerStr kw with
  | [] => 0
  | k :: ks => countTokenGo (k :: ks) k ((k :: ks).getLast (by simp)) false content

/-- `Math.max(1, Math.min(10, n))` on the scorers' running totals. -/
def clamp1to10 (n : Nat) : Nat := max 1 (min 10 n)

namespace File

/-- The cyclomatic-complexity indicator keywords of `File.calculateComplexity`. -/
def complexityKeywords : List Str :=
  ["if".data, "else".data, "switch".data, "case".data, "for".data, "while".data,
   "do".data, "foreach".data, "try".data, "catch".data, "finally".data, "throw".data]

/-- The keyword total of `File.calculateComplexity`: each keyword's
word-boundary match count, summed. -/
def keywordCount (content : Str) : Nat :=
  complexityKeywords.foldl (fun acc kw => acc + countToken content kw) 0

/-- `File.calculateComplexity(content)` from `src/models/File.js` (part_010):
base 1; line-count additions driven by `this.lineCount` (`>500 → +3`,
`>200 → +2`, `>100 → +1`); when `content` is non-empty (JS truthiness),
keyword additions (`>50 → +3`, `>20 → +2`, `>10 → +1`) and three `+1`
pattern checks; finally `Math.max(1, Math.min(10, complexity))`. -/
def calculateComplexity (lineCount : Nat) (content : Str) : Nat :=
  let base := 1 +
    (if lineCount > 500 then 3 else if lineCount > 200 then 2 else
     if lineCount > 100 then 1 else 0)
  let total :=
    if content ≠ [] then
      let kc := keywordCount content
      base + (if kc > 50 then 3 else if kc > 20 then 2 else if kc > 10 then 1 else 0)
        + (if containsSub content "async".data || containsSub content "await".data then 1 else 0)
        + (if containsSub content "Promise".data || containsSub content "callback".data then 1 else 0)
        + (if containsSub content "regex".data || containsSub content "RegExp".data then 1 else 0)
    else base
  clamp1to10 total

/-- The `File` constructor's complexity field:
`Math.max(1, Math.min(10, config.complexity || 1))`, where `config.complexity`
may be absent (`none`) and `0` is falsy. -/
def constructorComplexity (c : Option Int) : Int :=
  max 1 (min 10 (match c with | none => 1 | some v => if v = 0 then 1 else v))

end File

namespace IndexingSvc

/-- `cyclomaticKeywords[language] || cyclomaticKeywords.javascript` from
`IndexingService.calculateAdvancedComplexity`. -/
def cyclomaticKeywords (language : Str) : List Str :=
  if language = "python".data then
    ["if".data, "elif".data, "else".data, "for".data, "while".data, "try".data,
     "except".data, "and".data, "or".data]
  else if language = "java".data ∨ language = "php".data ∨ language = "javascript".data then
    ["if".data, "else".data, "switch".data, "case".data, "for".data, "while".data,
     "do".data, "try".data, "catch".data, "&&".data, "||".data, "?".data]
  else
    ["if".data, "else".data, "switch".data, "case".data, "for".data, "while".data,
     "do".data, "try".data, "catch".data, "&&".data, "||".data, "?".data]

/-- One keyword's contribution to the advanced keyword total. For `?` the
constructed regex is `/\b?\b/gi` (an optional boundary followed by a
boundary), which produces one empty match per word-boundary position. -/
def advCountFor (content kw : Str) : Nat :=
  if kw = "?".data then boundaryCount content else countToken content kw

def advKeywordCount (language content : Str) : Nat :=
  (cyclomaticKeywords language).foldl (fun acc kw => acc + advCountFor content kw) 0

/-- Control-flow addition of `calculateAdvancedComplexity`
(`>100 → +4`, `>50 → +3`, `>20 → +2`, `>10 → +1`). -/
def advKeywordAdd (kc : Nat) : Nat :=
  if kc > 100 then 4 else if kc > 50 then 3 else if kc > 20 then 2 else
  if kc > 10 then 1 else 0

/-- `IndexingService.calculateNestingLevel`: maximum running depth of literal
curly braces, with closing braces floored at zero. -/
def nestingLevelGo (maxLevel currentLevel : Nat) : Str → Nat
  | [] => maxLevel
  | c :: rest =>
      if c = '{' then nestingLevelGo (max maxLevel (currentLevel + 1)) (currentLevel + 1) rest
      else if c = '}' then nestingLevelGo maxLevel (currentLevel - 1) rest
      else nestingLevelGo maxLevel currentLevel rest

def calculateNestingLevel (content : Str) : Nat := nestingLevelGo 0 0 content

/-- Nesting addition (`>5 → +2`, `>3 → +1`). -/
def nestingAdd (n : Nat) : Nat := if n > 5 then 2 else if n > 3 then 1 else 0

/-- `content.split('\n').length`. -/
def lineCountOf (content : Str) : Nat := (splitSep '\n' content).length

/-- Line-count addition of `calculateAdvancedComplexity`, in source branch
order: `>1000 → +3`, `>500 → +2`, `>200 → +1`. -/
def advLinesAdd (lines : Nat) : Nat :=
  if lines > 1000 then 3 else if lines > 500 then 2 else if lines > 200 then 1 else 0

/-- The three language-specific pattern additions shared by both scorers. -/
def patternAdd (content : Str) : Nat :=
  (if containsSub content "async".data || containsSub content "await".data then 1 else 0)
  + (if containsSub content "Promise".data || containsSub content "callback".data then 1 else 0)
  + (if containsSub content "regex".data || containsSub content "RegExp".data then 1 else 0)

/-- `IndexingService.calculateAdvancedComplexity(content, language)`:
base 1, plus keyword, nesting, line-count and pattern additions, clamped by
`Math.max(1, Math.min(10, complexity))`. -/
def calculateAdvancedComplexity (content language : Str) : Nat :=
  clamp1to10 (1 + advKeywordAdd (advKeywordCount language content)
    + nestingAdd (calculateNestingLevel content)
    + advLinesAdd (lineCountOf content)
    + patternAdd content)

end IndexingSvc

/-- Modelled from the spec: the line-count brackets stated in §4.3 and in
claim C5 — "+1 when the line count exceeds 200, +2 when it exceeds 500,
+3 when it exceeds 1000, and +0 at or below 200". -/
def specLinesAdd (lines : Nat) : Nat :=
  if 200 < lines ∧ lines ≤ 500 then 1
  else if 500 < lines ∧ lines ≤ 1000 then 2
  else if 1000 < lines then 3
  else 0

/-- JavaScript `path.split(sep).pop()`: the last piece of the split. -/
def lastSegOr (sep : Char) (p : Str) : Str := (splitSep sep p).getLastD []

/-- `File.getFullName` (also `Folder.getName`):
`path.split('/').pop() || path.split('\\').pop() || path`
(an empty popped segment is falsy and falls through). -/
def getFullName (p : Str) : Str :=
  let a := lastSegOr '/' p
  if a ≠ [] then a
  else
    let b := lastSegOr '\\' p
    if b ≠ [] then b else p

/-- `File.getName`: the full name up to its first dot. -/
def getName (p : Str) : Str := (splitSep '.' (getFullName p)).headD []

/-- `File.getExtension`: the lower-cased text after the last dot of the whole
path, or empty when the path has no dot. -/
def getExtension (p : Str) : Str :=
  let parts := splitSep '.' p
  if parts.length > 1 then toLowerStr (parts.getLastD []) else []

/-- The `languageMap` of `File.detectLanguage`. -/
def languageMap : List (Str × Str) :=
  [("js".data, "javascript".data), ("jsx".data, "javascript".data),
   ("ts".data, "typescript".data), ("tsx".data, "typescript".data),
   ("php".data, "php".data), ("py".data, "python".data), ("java".data, "java".data),
   ("cs".data, "csharp".data), ("cpp".data, "cpp".data), ("cc".data, "cpp".data),
   ("cxx".data, "cpp".data), ("c".data, "c".data), ("h".data, "c".data),
   ("hpp".data, "cpp".data), ("rb".data, "ruby".data), ("go".data, "go".data),
   ("rs".data, "rust".data), ("swift".data, "swift".data), ("kt".data, "kotlin".data),
   ("html".data, "html".data), ("css".data, "css".data), ("scss".data, "scss".data),
   ("sass".data, "sass".data), ("json".data, "json".data), ("xml".data, "xml".data),
   ("yml".data, "yaml".data), ("yaml".data, "yaml".data), ("md".data, "markdown".data),
   ("sql".data, "sql".data), ("sh".data, "shell".data), ("bash".data, "shell".data),
   ("ps1".data, "powershell".data)]

/-- `File.detectLanguage`: `languageMap[this.extension] || 'unknown'`. -/
def detectLanguage (p : Str) : Str :=
  match languageMap.lookup (getExtension p) with
  | some l => l
  | none => "unknown".data

namespace FileTypes

def CONFIG : Str := "config".data
def README : Str := "readme".data
def TEST : Str := "test".data
def CONTROLLER : Str := "controller".data
def SERVICE : Str := "service".data
def MODEL : Str := "model".data
def COMPONENT : Str := "component".data
def UTILITY : Str := "utility".data
def STYLE : Str := "style".data
def TEMPLATE : Str := "template".data
def SCRIPT : Str := "script".data
def DATA : Str := "data".data
def MODULE : Str := "module".data
def OTHER : Str := "other".data

end FileTypes

/-- `fileName` inside `File.autoDetectType`: the lower-cased full name. -/
def fileNameOf (p : Str) : Str := toLowerStr (getFullName p)

/-- `path` inside `File.autoDetectType`: the lower-cased path. -/
def pathLowerOf (p : Str) : Str := toLowerStr p

/-- Condition of `autoDetectType`'s configuration rule. -/
def configTrigger (p : Str) : Bool :=
  ["package.json".data, "composer.json".data, "pom.xml".data, "build.gradle".data,
   "makefile".data, "dockerfile".data].contains (fileNameOf p)
  || containsSub (fileNameOf p) "config".data
  || containsSub (fileNameOf p) ".config.".data
  || containsSub (fileNameOf p) ".conf".data

/-- Condition of `autoDetectType`'s documentation rule. -/
def docTrigger (p : Str) : Bool :=
  containsSub (fileNameOf p) "readme".data || getExtension p = "md".data
  || containsSub (fileNameOf p) "doc".data

/-- Condition of `autoDetectType`'s test rule. -/
def testTrigger (p : Str) : Bool :=
  containsSub (pathLowerOf p) "test".data || containsSub (pathLowerOf p) "spec".data
  || containsSub (fileNameOf p) "test".data || containsSub (fileNameOf p) "spec".data

/-- Condition of `autoDetectType`'s controller rule. -/
def controllerTrigger (p : Str) : Bool :=
  containsSub (fileNameOf p) "controller".data || containsSub (pathLowerOf p) "controller".data

/-- Condition of `autoDetectType`'s service rule. -/
def serviceTrigger (p : Str) : Bool :=
  containsSub (fileNameOf p) "service".data || containsSub (pathLowerOf p) "service".data

/-- Condition of `autoDetectType`'s model rule. -/
def modelTrigger (p : Str) : Bool :=
  containsSub (fileNameOf p) "model".data || containsSub (pathLowerOf p) "model".data

/-- Condition of `autoDetectType`'s component rule. -/
def componentTrigger (p : Str) : Bool :=
  containsSub (fileNameOf p) "component".data || getExtension p = "vue".data
  || (getExtension p = "jsx".data && !containsSub (fileNameOf p) "test".data)

/-- Condition of `autoDetectType`'s utility rule. -/
def utilityTrigger (p : Str) : Bool :=
  containsSub (fileNameOf p) "util".data || containsSub (fileNameOf p) "helper".data
  || containsSub (pathLowerOf p) "util".data || containsSub (pathLowerOf p) "helper".data

/-- `File.autoDetectType` from `src/models/File.js` (part_010): the ordered
first-match chain over path/name/extension/language heuristics. -/
def autoDetectType (p : Str) : Str :=
  if configTrigger p then FileTypes.CONFIG
  else if docTrigger p then FileTypes.README
  else if testTrigger p then FileTypes.TEST
  else if controllerTrigger p then FileTypes.CONTROLLER
  else if serviceTrigger p then FileTypes.SERVICE
  else if modelTrigger p then FileTypes.MODEL
  else if componentTrigger p then FileTypes.COMPONENT
  else if utilityTrigger p then FileTypes.UTILITY
  else if ["css".data, "scss".data, "sass".data, "less".data, "styl".data].contains
      (getExtension p) then FileTypes.STYLE
  else if ["html".data, "htm".data, "hbs".data, "ejs".data, "pug".data,
      "twig".data].contains (getExtension p) then FileTypes.TEMPLATE
  else if ["sh".data, "bash".data, "ps1".data, "bat".data, "cmd".data].contains
      (getExtension p) then FileTypes.SCRIPT
  else if ["json".data, "xml".data, "csv".data, "txt".data, "data".data].contains
      (getExtension p) then FileTypes.DATA
  else if ["javascript".data, "typescript".data, "python".data, "php".data,
      "java".data, "csharp".data].contains (detectLanguage p) then FileTypes.MODULE
  else FileTypes.OTHER

/-- Pattern tokens of the glob-to-regex translations used by
`FileSystemService.matchesPattern` and `IndexingService`'s pattern tests. -/
inductive Tok where
  | lit (c : Char)
  | anyOne
  | star
deriving DecidableEq

/-- Regex matching of a token sequence at the start of a string, with a free
tail (`RegExp.prototype.test` ends wherever the pattern ends). Structured
with an explicit fuel counter so that it reduces in the kernel; every step
consumes a token or a character, so `ts.length + s.length + 1` fuel always
reaches a base case. -/
def matchHereF : Nat → List Tok → Str → Bool
  | 0, _, _ => false
  | _ + 1, [], _ => true
  | fuel + 1, Tok.star :: ts, s =>
      matchHereF fuel ts s
        || (match s with | [] => false | _ :: s2 => matchHereF fuel (Tok.star :: ts) s2)
  | fuel + 1, Tok.lit c :: ts, x :: xs => (x == c) && matchHereF fuel ts xs
  | fuel + 1, Tok.anyOne :: ts, _ :: xs => matchHereF fuel ts xs
  | _ + 1, _ :: _, [] => false

def matchHere (ts : List Tok) (s : Str) : Bool := matchHereF (ts.length + s.length + 1) ts s

/-- Unanchored `RegExp.prototype.test`: the token sequence matches starting at
some position of the string. -/
def regexTest (ts : List Tok) : Str → Bool
  | [] => matchHere ts []
  | c :: s2 => matchHere ts (c :: s2) || regexTest ts s2

/-- `FileSystemService.matchesPattern`'s regex construction: `.` is escaped to
a literal dot, `*` becomes `.*`, `?` becomes `.`; every other pattern
character is kept literally (faithful for patterns free of further regex
metacharacters). -/
def fsTokens (pattern : Str) : List Tok :=
  pattern.map (fun c => if c = '*' then Tok.star else if c = '?' then Tok.anyOne else Tok.lit c)

/-- `FileSystemService.matchesPattern`: case-insensitive unanchored regex test
(the `'i'` flag is modelled by lower-casing both sides), or a case-sensitive
`filePath.includes(pattern)` fallback. -/
def matchesPattern (filePath pattern : Str) : Bool :=
  regexTest (fsTokens (toLowerStr pattern)) (toLowerStr filePath) || containsSub filePath pattern

/-- `FileSystemService.shouldIncludePath`: excludes first, then default
inclusion on an empty include list, then any-include. -/
def shouldIncludePath (filePath : Str) (includePatterns excludePatterns : List Str) : Bool :=
  if excludePatterns.any (fun pattern => matchesPattern filePath pattern) then false
  else if includePatterns.isEmpty then true
  else includePatterns.any (fun pattern => matchesPattern filePath pattern)

/-- `folders.map(f => f.getName().toLowerCase())` in
`IndexingService.detectArchitecturePattern`; folders are given by path. -/
def archFolderNames (folders : List Str) : List Str :=
  folders.map (fun p => toLowerStr (getFullName p))

/-- The MVC test: `models`, `views` and `controllers` all present. -/
def mvcCond (folders : List Str) : Bool :=
  (archFolderNames folders).contains "models".data
  && (archFolderNames folders).contains "views".data
  && (archFolderNames folders).contains "controllers".data

/-- The Layered test: `services` and `repositories` both present. -/
def layeredCond (folders : List Str) : Bool :=
  (archFolderNames folders).contains "services".data
  && (archFolderNames folders).contains "repositories".data

/-- The Clean Architecture test: `entities` and `usecases` both present. -/
def cleanCond (folders : List Str) : Bool :=
  (archFolderNames folders).contains "entities".data
  && (archFolderNames folders).contains "usecases".data

/-- The Microservices test: more than two folder names contain `service`. -/
def microCond (folders : List Str) : Bool :=
  ((archFolderNames folders).filter (fun n => containsSub n "service".data)).length > 2

/-- `IndexingService.detectArchitecturePattern`: collects the matching labels
in order, falling back to `["Unknown"]` when none match. -/
def detectArchitecturePattern (folders : List Str) : List Str :=
  let patterns :=
    (if mvcCond folders then ["MVC".data] else [])
    ++ (if layeredCond folders then ["Layered".data] else [])
    ++ (if cleanCond folders then ["Clean Architecture".data] else [])
    ++ (if microCond folders then ["Microservices".data] else [])
  if patterns.length > 0 then patterns else ["Unknown".data]

/-- The `Folder` model of `src/models/Folder.js` (part_008): the include
flag, the direct files (represented by identifiers) and the subfolders. -/
inductive Folder where
  | mk (incl : Bool) (files : List Nat) (subfolders : List Folder)

def Folder.incl : Folder → Bool
  | .mk i _ _ => i

def Folder.files : Folder → List Nat
  | .mk _ f _ => f

def Folder.subfolders : Folder → List Folder
  | .mk _ _ s => s

/-- The subfolder loop of `Folder.getAllFiles`: a subfolder is visited only
when `!includedOnly || subfolder.include`; a visited subfolder contributes
its own files (gated by the same flag, which the visit condition has already
established when `includedOnly` is set) followed by its own subfolder loop. -/
def subFiles (includedOnly : Bool) : List Folder → List Nat
  | [] => []
  | Folder.mk incl files subs :: rest =>
      (if !includedOnly || incl then files ++ subFiles includedOnly subs else [])
      ++ subFiles includedOnly rest

/-- `Folder.getAllFiles(includedOnly)`: the receiver's own files when
`!includedOnly || this.include`, then the subfolder loop over its
subfolders. -/
def Folder.getAllFiles : Folder → Bool → List Nat
  | Folder.mk incl files subs, includedOnly =>
      (if !includedOnly || incl then files else []) ++ subFiles includedOnly subs

/-- A file identifier reachable from a strict descendant of the folder
through a chain of subfolders whose include flags are all true. -/
inductive DescVia : Folder → Nat → Prop where
  | own : ∀ (f s : Folder) (x : Nat), s ∈ f.subfolders → s.incl = true →
      x ∈ s.files → DescVia f x
  | deeper : ∀ (f s : Folder) (x : Nat), s ∈ f.subfolders → s.incl = true →
      DescVia s x → DescVia f x

/-- `this.maxFileSize = 1024 * 1024` hard-coded in the `IndexingService`
constructor (`src/services/IndexingService.js`). -/
def maxFileSize : Nat := 1024 * 1024

/-- The root-relative path of a child entry
(`path.relative(rootPath, path.join(dirPath, entry.name))`). -/
def joinRel (relDir name : Str) : Str :=
  if relDir = [] then name else relDir ++ '/' :: name

/-- The glob translation used by `IndexingService`'s pattern tests:
`pattern.replace(/\*/g, '.*')` — `*` becomes `.*`, and an unescaped `.` in
the pattern is the regex any-character. Case-sensitive and unanchored
(faithful for patterns free of further regex metacharacters). -/
def indexTokens (pattern : Str) : List Tok :=
  pattern.map (fun c => if c = '*' then Tok.star else if c = '.' then Tok.anyOne else Tok.lit c)

/-- `IndexingService.shouldExcludeFolder`: the root (`''` or `'.'`) is never
excluded; otherwise a pattern excludes the folder when it equals one of the
relative path's segments, or when it contains `*` and its translated regex
matches the relative path. -/
def shouldExcludeFolder (relativePath : Str) (excludePatterns : List Str) : Bool :=
  if relativePath = [] ∨ relativePath = ".".data then false
  else
    excludePatterns.any (fun pattern =>
      (splitSep '/' relativePath).contains pattern
      || (pattern.contains '*' && regexTest (indexTokens pattern) relativePath))

/-- The fixed temporary/cache-file patterns of
`IndexingService.shouldExcludeFile`. -/
def tempFilePatterns : List Str :=
  [".DS_Store".data, "Thumbs.db".data, "*.tmp".data, "*.log".data, "*.cache".data]

/-- `IndexingService.shouldExcludeFile` (its relative-path parameter is unused
in the source body): hidden files other than `.gitignore` and `.env.example`
are excluded, and so are matches of the temporary-file patterns. -/
def shouldExcludeFile (fileName relativePath : Str) : Bool :=
  if fileName.headD ' ' = '.' ∧ fileName ≠ ".gitignore".data
      ∧ fileName ≠ ".env.example".data then true
  else
    tempFilePatterns.any (fun pattern =>
      if pattern.contains '*' then regexTest (indexTokens pattern) fileName
      else fileName == pattern)

/-- A model file system entry: a file carries its byte size and whether
`fs.stat` succeeds on it; a directory carries whether `fs.readdir` succeeds
and its entries, in listing order. -/
inductive FsEntry where
  | file (name : Str) (size : Nat) (statOk : Bool)
  | dir (name : Str) (readable : Bool) (entries : List FsEntry)

/-- The entry loop of `IndexingService.indexDirectory`, collecting in
traversal order the files handed to `project.addFile` as root-relative
path/size pairs. A file whose `indexFile` call throws (stat failure or
`size > this.maxFileSize`) is caught, warned about and skipped; an excluded
directory is not descended into; an unreadable directory's `readdir` failure
is caught, contributing no children; in every case the loop continues with
the directory's remaining entries. -/
def indexEntries (excl : List Str) : Str → List FsEntry → List (Str × Nat)
  | _, [] => []
  | relDir, FsEntry.file name size statOk :: rest =>
      (if shouldExcludeFile name (joinRel relDir name) = false ∧ statOk = true
          ∧ size ≤ maxFileSize
        then [(joinRel relDir name, size)] else [])
      ++ indexEntries excl relDir rest
  | relDir, FsEntry.dir name readable entries :: rest =>
      (if shouldExcludeFolder (joinRel relDir name) excl = false ∧ readable = true
        then indexEntries excl (joinRel relDir name) entries else [])
      ++ indexEntries excl relDir rest

/-- A root-relative path/size pair that a fault-free walk must report: the
file entry is reachable from the walk's starting directory through readable,
non-excluded directories, its own `stat` succeeds, it passes the file filter
and it is within the size limit. -/
inductive Reaches (excl : List Str) : Str → List FsEntry → Str → Nat → Prop where
  | file : ∀ relDir entries name size, FsEntry.file name size true ∈ entries →
      shouldExcludeFile name (joinRel relDir name) = false → size ≤ maxFileSize →
      Reaches excl relDir entries (joinRel relDir name) size
  | dir : ∀ relDir entries name sub rel size, FsEntry.dir name true sub ∈ entries →
      shouldExcludeFolder (joinRel relDir name) excl = false →
      Reaches excl (joinRel relDir name) sub rel size →
      Reaches excl relDir entries rel size

/-- The `general` section of the configuration schema
(`src/config/ConfigSchema.js`); `maxFileSize` is documented as the maximum
file size to process, in bytes. -/
structure GeneralConfig where
  useGitignore : Bool
  maxFileSize : Nat
  followSymlinks : Bool
  ignoreHidden : Bool

/-- The configuration fields reaching `IndexingService.indexProject`. -/
structure Config where
  exclude : List Str
  general : GeneralConfig

/-- The walk `IndexingService.indexProject` performs over the root directory
listing. Of the configuration, only `config.exclude` is handed to the walk;
no reachable code reads `config.general.maxFileSize` — the size comparison
inside `indexFile` uses the constructor's hard-coded `this.maxFileSize`. -/
def indexProjectFiles (config : Config) (rootEntries : List FsEntry) : List (Str × Nat) :=
  indexEntries config.exclude [] rootEntries

/-- `metadata.totalSize`:
`files.reduce((sum, file) => sum + (file.size || 0), 0)`. -/
def metadataTotalSize (files : List (Str × Nat)) : Nat :=
  files.foldl (fun sum f => sum + f.2) 0

/-- The configuration of the spec's Scenario C: no exclude patterns, and
`general.maxFileSize = 10` bytes (`useGitignore = true`,
`followSymlinks = false`, `ignoreHidden = true`). -/
def scenarioCConfig : Config := ⟨[], ⟨true, 10, false, true⟩⟩

/-- The top-level section marker `'## '` of the generated documentation. -/
def docMark : Str := "## ".data

/-- Helper of `splitRe`: prepend a character to the piece currently being
accumulated (the head of the piece list). -/
def consHead (c : Char) : List Str → List Str
  | [] => [[c]]
  | h :: t => (c :: h) :: t

/-- `content.split(/^## /gm)`: the pieces of the content around occurrences
of `'## '` standing at a line start (position 0 or right after a newline);
the matched markers themselves are removed by the split. The Boolean tracks
whether the scan currently stands at a line start. -/
def splitRe : Str → Bool → List Str
  | [], _ => [[]]
  | '#' :: '#' :: ' ' :: rest, true => [] :: splitRe rest false
  | c :: rest, _ => consHead c (splitRe rest (c == '\n'))

/-- The accumulation loop of `ExportService.splitDocumentation`: for each
section after the first piece, re-attach the marker, flush the current file
when adding the section would exceed `maxSize` bytes and the current file is
non-empty, and append otherwise. -/
def splitLoop (maxSize : Nat) : List Str → List Str → Str → List Str × Str
  | [], files, current => (files, current)
  | sec :: rest, files, current =>
      if utf8Len (current ++ (docMark ++ sec)) > maxSize ∧ current ≠ [] then
        splitLoop maxSize rest (files ++ [current]) (docMark ++ sec)
      else
        splitLoop maxSize rest files (current ++ (docMark ++ sec))

/-- `ExportService.splitDocumentation(content, maxSize)`: split at top-level
`'## '` section boundaries, accumulate size-bounded files, push the final
non-empty current file, and fall back to `[content]` when no file was
produced. -/
def splitDocumentation (content : Str) (maxSize : Nat) : List Str :=
  match splitRe content true with
  | [] => [content]
  | s0 :: rest =>
      let r := splitLoop maxSize rest [] s0
      let files2 := if r.2 ≠ [] then r.1 ++ [r.2] else r.1
      if files2 ≠ [] then files2 else [content]

/-- Number of top-level section starts of a documentation string: each
`'## '` marker at a line start, plus the leading text before the first
marker when it is non-empty. -/
def sectionStarts (content : Str) : Nat :=
  match splitRe content true with
  | [] => 0
  | s0 :: rest => (if s0 ≠ [] then 1 else 0) + rest.length

/-- Reassembly of the pieces of `splitRe`: the first piece, then each later
piece with its removed `'## '` marker re-attached. -/
def joinSecs : List Str → Str
  | [] => []
  | s0 :: rest => s0 ++ (rest.map (fun s => docMark ++ s)).flatten

theorem clamp1to10_bounds (n : Nat) : 1 ≤ clamp1to10 n ∧ clamp1to10 n ≤ 10 := by
  unfold clamp1to10; omega

theorem advLinesAdd_eq_specLinesAdd (l : Nat) :
    IndexingSvc.advLinesAdd l = specLinesAdd l := by
  unfold IndexingSvc.advLinesAdd specLinesAdd; split_ifs <;> omega

/-- C1: every complexity the program produces lies in `[1, 10]`:
`File.calculateComplexity` for any line count and content,
`IndexingService.calculateAdvancedComplexity` for any content and language,
and the `File` constructor's clamping of any supplied complexity value. -/
theorem c1_complexity_always_in_1_to_10 (lineCount : Nat) (content language : Str)
    (c : Option Int) :
    (1 ≤ File.calculateComplexity lineCount content
      ∧ File.calculateComplexity lineCount content ≤ 10)
    ∧ (1 ≤ IndexingSvc.calculateAdvancedComplexity content language
      ∧ IndexingSvc.calculateAdvancedComplexity content language ≤ 10)
    ∧ (1 ≤ File.constructorComplexity c ∧ File.constructorComplexity c ≤ 10) := by
  refine ⟨?_, ?_, ?_⟩
  · simp only [File.calculateComplexity]
    exact clamp1to10_bounds _
  · simp only [IndexingSvc.calculateAdvancedComplexity]
    exact clamp1to10_bounds _
  · unfold File.constructorComplexity
    rcases c with _ | v
    · constructor <;> omega
    · split <;> constructor <;> omega

/-- C5 counterexample: at 300 lines with empty content,
`File.calculateComplexity` returns 3 (it adds +2 for `lineCount > 200`),
whereas the claimed brackets (+1 above 200 lines, nothing else triggered)
would give `clamp1to10 (1 + specLinesAdd 300) = 2`. -/
theorem c5_counterexample_file_scorer_brackets :
    File.calculateComplexity 300 [] = 3 ∧ clamp1to10 (1 + specLinesAdd 300) = 2 := by
  decide

/-- C5 (amended): `IndexingService.calculateAdvancedComplexity` — not
`File.calculateComplexity` — follows the spec's line-count brackets
(+1 above 200 lines, +2 above 500, +3 above 1000, +0 at or below 200), and
its control-flow keyword contribution is monotone in the keyword count,
ranging over +1..+4 (0 at counts ≤ 10, at least 1 above 10, exactly 4 above
100). -/
theorem c5_advanced_scorer_uses_spec_brackets :
    (∀ content language : Str,
      IndexingSvc.calculateAdvancedComplexity content language
        = clamp1to10 (1 + IndexingSvc.advKeywordAdd (IndexingSvc.advKeywordCount language content)
            + IndexingSvc.nestingAdd (IndexingSvc.calculateNestingLevel content)
            + specLinesAdd (IndexingSvc.lineCountOf content)
            + IndexingSvc.patternAdd content))
    ∧ (∀ k : Nat, IndexingSvc.advKeywordAdd k ≤ 4
        ∧ (k ≤ 10 → IndexingSvc.advKeywordAdd k = 0)
        ∧ (10 < k → 1 ≤ IndexingSvc.advKeywordAdd k)
        ∧ (100 < k → IndexingSvc.advKeywordAdd k = 4))
    ∧ Monotone IndexingSvc.advKeywordAdd := by
  refine ⟨?_, ?_, ?_⟩
  · intro content language
    simp only [IndexingSvc.calculateAdvancedComplexity, advLinesAdd_eq_specLinesAdd]
  · intro k
    unfold IndexingSvc.advKeywordAdd
    refine ⟨?_, ?_, ?_, ?_⟩ <;> (split_ifs <;> omega)
  · intro a b hab
    unfold IndexingSvc.advKeywordAdd
    split_ifs <;> omega

/-- C5 witness: the amended theorem applied at the concrete keyword count 101
(discharging `100 < 101`) and at empty content. -/
theorem c5_witness_concrete_application :
    IndexingSvc.advKeywordAdd 101 = 4
    ∧ IndexingSvc.calculateAdvancedComplexity [] []
        = clamp1to10 (1 + IndexingSvc.advKeywordAdd (IndexingSvc.advKeywordCount [] [])
            + IndexingSvc.nestingAdd (IndexingSvc.calculateNestingLevel [])
            + specLinesAdd (IndexingSvc.lineCountOf [])
            + IndexingSvc.patternAdd []) :=
  ⟨(c5_advanced_scorer_uses_spec_brackets.2.1 101).2.2.2 (by omega),
   c5_advanced_scorer_uses_spec_brackets.1 [] []⟩

/-- C4: semantic-type classification is an ordered first-match chain with the
spec's priority — config first, then readme/documentation, then test, then
controller, then service, then model; in particular, once the config and
documentation rules do not fire, a path or name containing "test"/"spec"
yields `test` regardless of any "controller"/"service"/"model" substrings. -/
theorem c4_autoDetectType_priority_chain (p : Str) :
    (configTrigger p = true → autoDetectType p = FileTypes.CONFIG)
    ∧ (configTrigger p = false → docTrigger p = true → autoDetectType p = FileTypes.README)
    ∧ (configTrigger p = false → docTrigger p = false → testTrigger p = true →
        autoDetectType p = FileTypes.TEST)
    ∧ (configTrigger p = false → docTrigger p = false → testTrigger p = false →
        controllerTrigger p = true → autoDetectType p = FileTypes.CONTROLLER)
    ∧ (configTrigger p = false → docTrigger p = false → testTrigger p = false →
        controllerTrigger p = false → serviceTrigger p = true →
        autoDetectType p = FileTypes.SERVICE)
    ∧ (configTrigger p = false → docTrigger p = false → testTrigger p = false →
        controllerTrigger p = false → serviceTrigger p = false → modelTrigger p = true →
        autoDetectType p = FileTypes.MODEL) := by
  refine ⟨?_, ?_, ?_, ?_, ?_, ?_⟩ <;>
    · intros
      simp only [autoDetectType, *]
      simp

/-- C4 witness: `src/controllers/UserController.test.js` contains both "test"
and "controller" in its lower-cased path and name, and the chain classifies
it `test`. -/
theorem c4_witness_test_beats_controller :
    autoDetectType "src/controllers/UserController.test.js".data = FileTypes.TEST :=
  (c4_autoDetectType_priority_chain "src/controllers/UserController.test.js".data).2.2.1
    (by decide) (by decide) (by decide)

/-- C2: `shouldIncludePath` is exclude-dominant and defaults to inclusion:
a path matching any exclude pattern is rejected regardless of the include
patterns; otherwise an empty include list admits every path, and a non-empty
include list admits exactly the paths matching at least one include pattern. -/
theorem c2_shouldIncludePath_exclude_dominant (filePath : Str)
    (includePatterns excludePatterns : List Str) :
    ((∃ q ∈ excludePatterns, matchesPattern filePath q = true) →
      shouldIncludePath filePath includePatterns excludePatterns = false)
    ∧ ((∀ q ∈ excludePatterns, matchesPattern filePath q = false) →
        (includePatterns = [] →
          shouldIncludePath filePath includePatterns excludePatterns = true)
        ∧ (includePatterns ≠ [] →
            (shouldIncludePath filePath includePatterns excludePatterns = true
              ↔ ∃ q ∈ includePatterns, matchesPattern filePath q = true))) := by
  constructor
  · intro hex
    have : excludePatterns.any (fun pattern => matchesPattern filePath pattern) = true := by
      rcases hex with ⟨q, hq, hm⟩
      exact List.any_eq_true.mpr ⟨q, hq, hm⟩
    simp [shouldIncludePath, this]
  · intro hnone
    have hexf : excludePatterns.any (fun pattern => matchesPattern filePath pattern) = false := by
      rcases h : excludePatterns.any (fun pattern => matchesPattern filePath pattern) with _ | _
      · rfl
      · rcases List.any_eq_true.mp h with ⟨q, hq, hm⟩
        have := hnone q hq
        simp [this] at hm
    constructor
    · intro hemp
      simp [shouldIncludePath, hexf, hemp]
    · intro hne
      have : includePatterns.isEmpty = false := by
        rcases includePatterns with _ | _
        · exact absurd rfl hne
        · rfl
      simp [shouldIncludePath, hexf, this, List.any_eq_true]

/-- C2 witness: with exclude `node_modules` and include `*.js`, the path
`node_modules/lib/index.js` matches both and is excluded; with the same
include list and no excludes it is included. -/
theorem c2_witness_node_modules_excluded :
    shouldIncludePath "node_modules/lib/index.js".data ["*.js".data]
      ["node_modules".data] = false
    ∧ shouldIncludePath "node_modules/lib/index.js".data ["*.js".data] [] = true :=
  ⟨(c2_shouldIncludePath_exclude_dominant "node_modules/lib/index.js".data
      ["*.js".data] ["node_modules".data]).1
    ⟨"node_modules".data, by decide, by decide⟩,
   ((c2_shouldIncludePath_exclude_dominant "node_modules/lib/index.js".data
      ["*.js".data] []).2 (by intro q hq; cases hq)).2 (by decide) |>.mpr
    ⟨"*.js".data, by decide, by decide⟩⟩

/-- C6: architecture detection — each label is reported exactly when its
folder-name condition holds (`MVC` for models+views+controllers, `Layered`
for services+repositories, `Clean Architecture` for entities+usecases,
`Microservices` for more than two names containing "service"); labels may
co-occur, and with no condition holding the result is exactly `["Unknown"]`. -/
theorem c6_detectArchitecturePattern_characterised (folders : List Str) :
    ("MVC".data ∈ detectArchitecturePattern folders ↔ mvcCond folders = true)
    ∧ ("Layered".data ∈ detectArchitecturePattern folders ↔ layeredCond folders = true)
    ∧ ("Clean Architecture".data ∈ detectArchitecturePattern folders
        ↔ cleanCond folders = true)
    ∧ ("Microservices".data ∈ detectArchitecturePattern folders ↔ microCond folders = true)
    ∧ (mvcCond folders = false → layeredCond folders = false → cleanCond folders = false →
        microCond folders = false → detectArchitecturePattern folders = ["Unknown".data]) := by
  cases h1 : mvcCond folders <;> cases h2 : layeredCond folders <;>
    cases h3 : cleanCond folders <;> cases h4 : microCond folders <;>
    simp_all [detectArchitecturePattern]

/-- C6 witness: `models`+`views`+`controllers` folders trigger `MVC`, and a
lone `src` folder yields exactly `["Unknown"]`. -/
theorem c6_witness_mvc_and_unknown :
    "MVC".data ∈ detectArchitecturePattern
      ["app/models".data, "app/views".data, "app/controllers".data]
    ∧ detectArchitecturePattern ["src".data] = ["Unknown".data] :=
  ⟨(c6_detectArchitecturePattern_characterised
      ["app/models".data, "app/views".data, "app/controllers".data]).1.mpr (by decide),
   (c6_detectArchitecturePattern_characterised ["src".data]).2.2.2.2
      (by decide) (by decide) (by decide) (by decide)⟩

@[simp] theorem Folder.incl_mk (i : Bool) (f : List Nat) (s : List Folder) :
    (Folder.mk i f s).incl = i := rfl

@[simp] theorem Folder.files_mk (i : Bool) (f : List Nat) (s : List Folder) :
    (Folder.mk i f s).files = f := rfl

@[simp] theorem Folder.subfolders_mk (i : Bool) (f : List Nat) (s : List Folder) :
    (Folder.mk i f s).subfolders = s := rfl

theorem descVia_iff (f : Folder) (x : Nat) :
    DescVia f x ↔ ∃ s ∈ f.subfolders, s.incl = true ∧ (x ∈ s.files ∨ DescVia s x) := by
  constructor
  · intro h
    cases h with
    | own f s x hs hi hx => exact ⟨s, hs, hi, Or.inl hx⟩
    | deeper f s x hs hi hx => exact ⟨s, hs, hi, Or.inr hx⟩
  · rintro ⟨s, hs, hi, hx | hx⟩
    · exact DescVia.own f s x hs hi hx
    · exact DescVia.deeper f s x hs hi hx

theorem subFiles_mem_aux :
    ∀ (n : Nat) (l : List Folder), sizeOf l ≤ n → ∀ x : Nat,
      (x ∈ subFiles true l ↔ ∃ s ∈ l, s.incl = true ∧ (x ∈ s.files ∨ DescVia s x)) := by
  intro n
  induction n with
  | zero =>
      intro l h
      exact absurd h (by cases l <;> simp)
  | succ n ih =>
      intro l h x
      match l with
      | [] => simp [subFiles]
      | Folder.mk i fs subs :: rest =>
          have hsz : sizeOf subs ≤ n ∧ sizeOf rest ≤ n := by
            simp only [List.cons.sizeOf_spec, Folder.mk.sizeOf_spec] at h
            omega
          rw [subFiles]
          rw [List.mem_append, ih rest hsz.2 x]
          cases hi : i with
          | false =>
              simp only [List.mem_cons]
              constructor
              · rintro (hx | ⟨s, hs, hsi, hsx⟩)
                · simp at hx
                · exact ⟨s, Or.inr hs, hsi, hsx⟩
              · rintro ⟨s, heq | hmem, hsi, hsx⟩
                · subst heq
                  simp at hsi
                · exact Or.inr ⟨s, hmem, hsi, hsx⟩
          | true =>
              simp only [Bool.not_true, Bool.false_or, if_true, List.mem_append,
                List.mem_cons]
              rw [ih subs hsz.1 x]
              constructor
              · rintro ((hfs | ⟨s, hs, hsi, hsx⟩) | ⟨s, hs, hsi, hsx⟩)
                · exact ⟨Folder.mk true fs subs, Or.inl rfl, rfl, Or.inl (by simpa using hfs)⟩
                · refine ⟨Folder.mk true fs subs, Or.inl rfl, rfl, Or.inr ?_⟩
                  rw [descVia_iff]
                  exact ⟨s, by simpa using hs, hsi, hsx⟩
                · exact ⟨s, Or.inr hs, hsi, hsx⟩
              · rintro ⟨s, heq | hmem, hsi, hsx⟩
                · subst heq
                  rcases hsx with hfs | hdesc
                  · exact Or.inl (Or.inl (by simpa using hfs))
                  · rw [descVia_iff] at hdesc
                    rcases hdesc with ⟨s2, hs2, hsi2, hsx2⟩
                    exact Or.inl (Or.inr ⟨s2, by simpa using hs2, hsi2, hsx2⟩)
                · exact Or.inr ⟨s, hmem, hsi, hsx⟩

/-- C10 counterexample: a root folder with `include = false` containing an
included subfolder holding file 7 — `getAllFiles(true)` still returns 7,
although 7 belongs to a descendant of an excluded folder (the receiver): the
receiver's own flag gates only its direct files, not the traversal of its
subfolders. -/
theorem c10_counterexample_excluded_root_not_pruned :
    Folder.getAllFiles (Folder.mk false [] [Folder.mk true [7] []]) true = [7] := by
  simp [Folder.getAllFiles, subFiles]

/-- C10 (amended): for `getAllFiles(true)`, exclusion prunes whole subtrees
strictly below the receiver — a returned file is either a direct file of the
receiver (requiring the receiver's own include flag) or reachable through a
chain of subfolders every one of which has `include = true`; the receiver's
own flag is not consulted for that chain, so only strict-subfolder exclusion
prunes. -/
theorem c10_getAllFiles_included_characterised (f : Folder) (x : Nat) :
    x ∈ f.getAllFiles true ↔ ((f.incl = true ∧ x ∈ f.files) ∨ DescVia f x) := by
  match f with
  | Folder.mk i fs subs =>
      rw [Folder.getAllFiles, List.mem_append,
        subFiles_mem_aux (sizeOf subs) subs (le_refl _) x, descVia_iff]
      cases hi : i with
      | false => simp
      | true => simp

/-- C10 witness: the amended characterisation applied to the counterexample
tree — file 7 is reached through the included subfolder chain. -/
theorem c10_witness_chain_application :
    7 ∈ Folder.getAllFiles (Folder.mk false [] [Folder.mk true [7] []]) true :=
  (c10_getAllFiles_included_characterised
      (Folder.mk false [] [Folder.mk true [7] []]) 7).mpr
    (Or.inr (DescVia.own _ (Folder.mk true [7] []) 7 (List.mem_cons_self _ _) rfl
      (List.mem_cons_self _ _)))

theorem reaches_weaken (excl : List Str) (relDir : Str) (e : FsEntry)
    (rest : List FsEntry) (rel : Str) (size : Nat)
    (h : Reaches excl relDir rest rel size) : Reaches excl relDir (e :: rest) rel size := by
  cases h
  case file =>
    rename_i hex hsz hmem
    exact Reaches.file _ _ _ _ (List.mem_cons_of_mem _ hmem) hex hsz
  case dir =>
    rename_i sub hex hmem hr
    exact Reaches.dir _ _ _ _ _ _ (List.mem_cons_of_mem _ hmem) hex hr

theorem indexEntries_mem_aux (excl : List Str) :
    ∀ (n : Nat) (entries : List FsEntry), sizeOf entries ≤ n →
      ∀ (relDir rel : Str) (size : Nat),
        ((rel, size) ∈ indexEntries excl relDir entries
          ↔ Reaches excl relDir entries rel size) := by
  intro n
  induction n with
  | zero =>
      intro entries h
      exact absurd h (by cases entries <;> simp)
  | succ n ih =>
      intro entries h relDir rel size
      match entries with
      | [] =>
          rw [indexEntries]
          simp only [List.not_mem_nil, false_iff]
          intro hr
          cases hr with
          | file _ _ _ _ hmem _ _ => exact absurd hmem (List.not_mem_nil _)
          | dir _ _ _ _ _ _ hmem _ _ => exact absurd hmem (List.not_mem_nil _)
      | FsEntry.file name sz statOk :: rest =>
          have hrest : sizeOf rest ≤ n := by
            simp only [List.cons.sizeOf_spec, FsEntry.file.sizeOf_spec] at h
            omega
          rw [indexEntries, List.mem_append]
          constructor
          · rintro (hin | hin)
            · by_cases hc : shouldExcludeFile name (joinRel relDir name) = false
                  ∧ statOk = true ∧ sz ≤ maxFileSize
              · rw [if_pos hc] at hin
                rw [List.mem_singleton, Prod.mk.injEq] at hin
                obtain ⟨h1, h2⟩ := hin
                subst h1
                subst h2
                obtain ⟨hc1, hc2, hc3⟩ := hc
                subst hc2
                exact Reaches.file relDir _ name _ (List.mem_cons_self _ _) hc1 hc3
              · rw [if_neg hc] at hin
                exact absurd hin (List.not_mem_nil _)
            · exact reaches_weaken _ _ _ _ _ _ ((ih rest hrest relDir rel size).mp hin)
          · intro hr
            cases hr
            case file =>
              rename_i hex hsze hmem
              rcases List.mem_cons.mp hmem with heq | hmem2
              · injection heq with hn hs hst
                subst hn
                subst hs
                left
                rw [if_pos ⟨hex, hst.symm, hsze⟩]
                exact List.mem_singleton.mpr rfl
              · right
                exact (ih rest hrest relDir _ _).mpr
                  (Reaches.file relDir rest _ _ hmem2 hex hsze)
            case dir =>
              rename_i sub2 hex hmem hr2
              rcases List.mem_cons.mp hmem with heq | hmem2
              · exact (FsEntry.noConfusion heq)
              · right
                exact (ih rest hrest relDir _ _).mpr
                  (Reaches.dir relDir rest _ sub2 _ _ hmem2 hex hr2)
      | FsEntry.dir name readable sub :: rest =>
          have hsz2 : sizeOf sub ≤ n ∧ sizeOf rest ≤ n := by
            simp only [List.cons.sizeOf_spec, FsEntry.dir.sizeOf_spec] at h
            omega
          rw [indexEntries, List.mem_append]
          constructor
          · rintro (hin | hin)
            · by_cases hc : shouldExcludeFolder (joinRel relDir name) excl = false
                  ∧ readable = true
              · rw [if_pos hc] at hin
                obtain ⟨hc1, hc2⟩ := hc
                subst hc2
                exact Reaches.dir relDir _ name sub rel size (List.mem_cons_self _ _) hc1
                  ((ih sub hsz2.1 (joinRel relDir name) rel size).mp hin)
              · rw [if_neg hc] at hin
                exact absurd hin (List.not_mem_nil _)
            · exact reaches_weaken _ _ _ _ _ _ ((ih rest hsz2.2 relDir rel size).mp hin)
          · intro hr
            cases hr
            case file =>
              rename_i hex hsze hmem
              rcases List.mem_cons.mp hmem with heq | hmem2
              · exact (FsEntry.noConfusion heq)
              · right
                exact (ih rest hsz2.2 relDir _ _).mpr
                  (Reaches.file relDir rest _ _ hmem2 hex hsze)
            case dir =>
              rename_i sub2 hex hmem hr2
              rcases List.mem_cons.mp hmem with heq | hmem2
              · injection heq with hn hrd hsub
                subst hn
                subst hsub
                left
                rw [if_pos ⟨hex, hrd.symm⟩]
                exact (ih _ hsz2.1 _ _ _).mpr hr2
              · right
                exact (ih rest hsz2.2 relDir _ _).mpr
                  (Reaches.dir relDir rest _ sub2 _ _ hmem2 hex hr2)

/-- C8: the walk of `IndexingService.indexDirectory` never aborts on a
failing entry — an unreadable directory or an unreadable/over-sized file is
caught, warned about and skipped, the containing directory's remaining
entries are still processed, and the collected files are exactly the
readable, filter-passing, within-limit file entries reachable through
readable non-excluded directories. -/
theorem c8_indexDirectory_covers_exactly_readable (excl : List Str)
    (relDir rel : Str) (entries : List FsEntry) (size : Nat) :
    (rel, size) ∈ indexEntries excl relDir entries
      ↔ Reaches excl relDir entries rel size :=
  indexEntries_mem_aux excl (sizeOf entries) entries (le_refl _) relDir rel size

/-- C8 witness: a 2 MB file (over the 1 MB limit) and an unreadable
directory precede a readable 10-byte file; the walk still reports the
readable file. -/
theorem c8_witness_failures_do_not_block :
    (joinRel [] "ok.js".data, 10) ∈ indexEntries [] []
      [FsEntry.file "huge.bin".data 2000000 true,
       FsEntry.dir "locked".data false [],
       FsEntry.file "ok.js".data 10 true] :=
  (c8_indexDirectory_covers_exactly_readable [] [] (joinRel [] "ok.js".data)
      [FsEntry.file "huge.bin".data 2000000 true,
       FsEntry.dir "locked".data false [],
       FsEntry.file "ok.js".data 10 true] 10).mpr
    (Reaches.file [] _ "ok.js".data 10
      (List.mem_cons_of_mem _ (List.mem_cons_of_mem _ (List.mem_cons_self _ _)))
      (by decide) (by decide))

/-- C3 (code bug): with `general.maxFileSize` set to 10 bytes, a readable
100-byte file is still indexed — it appears in the flattened file list and
its 100 bytes are counted in `totalSize` — because the size comparison in
`indexFile` uses the constructor's hard-coded `this.maxFileSize = 1048576`
and no code path reads `general.maxFileSize`. -/
theorem c3_general_maxFileSize_never_consulted :
    indexProjectFiles scenarioCConfig [FsEntry.file "big.txt".data 100 true]
      = [(joinRel [] "big.txt".data, 100)]
    ∧ metadataTotalSize
        (indexProjectFiles scenarioCConfig [FsEntry.file "big.txt".data 100 true])
      = 100 := by
  have h1 : indexProjectFiles scenarioCConfig [FsEntry.file "big.txt".data 100 true]
      = [(joinRel [] "big.txt".data, 100)] := by
    rw [indexProjectFiles, indexEntries]
    rw [if_pos ⟨by decide, rfl, by decide⟩, indexEntries]
    rfl
  refine ⟨h1, ?_⟩
  rw [h1]
  rfl

theorem consHead_ne_nil (c : Char) (l : List Str) : consHead c l ≠ [] := by
  cases l <;> simp [consHead]

theorem splitRe_ne_nil (s : Str) (ls : Bool) : splitRe s ls ≠ [] := by
  rw [splitRe.eq_def]
  split
  · simp
  · simp
  · exact consHead_ne_nil _ _

theorem joinSecs_consHead (c : Char) (l : List Str) :
    joinSecs (consHead c l) = c :: joinSecs l := by
  cases l <;> simp [consHead, joinSecs]

theorem splitRe_join (s : Str) (ls : Bool) : joinSecs (splitRe s ls) = s := by
  induction s, ls using splitRe.induct with
  | case1 ls => simp [splitRe, joinSecs]
  | case2 rest ih =>
      rcases hsp : splitRe rest false with _ | ⟨h1, t1⟩
      · exact absurd hsp (splitRe_ne_nil rest false)
      · rw [hsp] at ih
        rw [splitRe, hsp]
        simp only [joinSecs, List.map_cons, List.flatten_cons, List.nil_append] at ih ⊢
        rw [List.append_assoc, ih]
        rfl
  | case3 c rest ls hne ih =>
      rw [splitRe.eq_def]
      split
      · next h => exact absurd h (by simp)
      · next rest2 h =>
          injection h with h1 h2
          exact absurd (hne rest2 h1 h2 rfl) id
      · next c2 rest2 heq hcond =>
          injection heq with h1 h2
          subst h1
          subst h2
          rw [joinSecs_consHead, ih]

theorem utf8Len_append (a b : Str) : utf8Len (a ++ b) = utf8Len a + utf8Len b := by
  simp [utf8Len]

theorem isPrefixOf_append_self (a b : Str) : a.isPrefixOf (a ++ b) = true := by
  induction a with
  | nil => simp [List.isPrefixOf]
  | cons x xs ih => simp [List.isPrefixOf, ih]

theorem isPrefixOf_extend (a b c : Str) (h : a.isPrefixOf b = true) :
    a.isPrefixOf (b ++ c) = true := by
  induction a generalizing b with
  | nil => simp [List.isPrefixOf]
  | cons x xs ih =>
      cases b with
      | nil => simp [List.isPrefixOf] at h
      | cons y ys =>
          simp only [List.isPrefixOf, Bool.and_eq_true, List.cons_append] at h ⊢
          exact ⟨h.1, ih ys h.2⟩

theorem splitLoop_flatten (m : Nat) :
    ∀ (secs files : List Str) (current : Str),
      (splitLoop m secs files current).1.flatten ++ (splitLoop m secs files current).2
        = files.flatten ++ current ++ (secs.map (fun s => docMark ++ s)).flatten := by
  intro secs
  induction secs with
  | nil => intro files current; simp [splitLoop]
  | cons sec rest ih =>
      intro files current
      rw [splitLoop]
      split
      · rw [ih]
        simp [List.append_assoc]
      · rw [ih]
        simp [List.append_assoc]

theorem splitLoop_marks (m : Nat) :
    ∀ (secs files : List Str) (current : Str),
      (∀ p ∈ files.drop 1, docMark.isPrefixOf p = true) →
      (files ≠ [] → docMark.isPrefixOf current = true) →
      (∀ p ∈ (splitLoop m secs files current).1.drop 1, docMark.isPrefixOf p = true)
      ∧ ((splitLoop m secs files current).1 ≠ [] →
          docMark.isPrefixOf (splitLoop m secs files current).2 = true) := by
  intro secs
  induction secs with
  | nil =>
      intro files current h1 h2
      exact ⟨h1, h2⟩
  | cons sec rest ih =>
      intro files current h1 h2
      rw [splitLoop]
      split
      · refine ih (files ++ [current]) (docMark ++ sec) ?_ ?_
        · intro p hp
          cases files with
          | nil => simp at hp
          | cons f0 fs =>
              simp only [List.cons_append, List.drop_succ_cons, List.drop_zero] at hp
              rcases List.mem_append.mp hp with hp2 | hp2
              · exact h1 p (by simpa using hp2)
              · rw [List.mem_singleton.mp hp2]
                exact h2 (by simp)
        · intro _
          exact isPrefixOf_append_self _ _
      · refine ih files (current ++ (docMark ++ sec)) h1 ?_
        intro hne
        exact isPrefixOf_extend _ _ _ (h2 hne)

theorem splitLoop_len_mono (m : Nat) :
    ∀ (secs files : List Str) (current : Str),
      files.length ≤ (splitLoop m secs files current).1.length := by
  intro secs
  induction secs with
  | nil => intro files current; simp [splitLoop]
  | cons sec rest ih =>
      intro files current
      rw [splitLoop]
      split
      · calc files.length ≤ (files ++ [current]).length := by simp
          _ ≤ _ := ih _ _
      · exact ih _ _

theorem splitLoop_current_ne_nil (m : Nat) :
    ∀ (secs files : List Str) (current : Str), current ≠ [] →
      (splitLoop m secs files current).2 ≠ [] := by
  intro secs
  induction secs with
  | nil => intro files current h; simpa [splitLoop] using h
  | cons sec rest ih =>
      intro files current h
      rw [splitLoop]
      split
      · exact ih _ _ (by simp [docMark])
      · exact ih _ _ (by simp [h])

theorem splitLoop_push_happens (m : Nat) :
    ∀ (secs files : List Str) (current : Str), current ≠ [] → secs ≠ [] →
      m < utf8Len (current ++ (secs.map (fun s => docMark ++ s)).flatten) →
      files.length + 1 ≤ (splitLoop m secs files current).1.length := by
  intro secs
  induction secs with
  | nil => intro _ _ _ hne _; exact absurd rfl hne
  | cons sec rest ih =>
      intro files current hcur _ hsz
      rw [splitLoop]
      split
      · calc files.length + 1 = (files ++ [current]).length := by simp
          _ ≤ _ := splitLoop_len_mono m rest _ _
      · next hcond =>
          have hle : ¬ (utf8Len (current ++ (docMark ++ sec)) > m) := fun hgt =>
            hcond ⟨hgt, hcur⟩
          cases rest with
          | nil =>
              exfalso
              apply hle
              simpa using hsz
          | cons r rs =>
              refine ih files (current ++ (docMark ++ sec)) (by simp [hcur]) (by simp) ?_
              rw [List.map_cons, List.flatten_cons, ← List.append_assoc] at hsz
              exact hsz

/-- C7 counterexample: with content `hello world` (11 bytes, no `'## '`
marker) and the positive byte budget 1, which is smaller than the content,
`splitDocumentation` returns a single part — not at least two. -/
theorem c7_counterexample_single_part :
    (splitDocumentation "hello world".data 1).length = 1
    ∧ 0 < 1 ∧ 1 < utf8Len "hello world".data := by
  decide

/-- C7 (amended): for every documentation string and byte budget, the
in-order concatenation of the returned parts reproduces the string exactly
and every part after the first begins with a top-level `'## '` marker; the
returned parts number at least two provided additionally that the string has
at least two top-level section starts (each `'## '` marker at a line start,
plus a non-empty leading text) and the positive budget is smaller than the
string's byte size. -/
theorem c7_splitDocumentation_split_properties (content : Str) (maxSize : Nat) :
    (splitDocumentation content maxSize).flatten = content
    ∧ (∀ part ∈ (splitDocumentation content maxSize).drop 1,
        docMark.isPrefixOf part = true)
    ∧ (2 ≤ sectionStarts content → 0 < maxSize → maxSize < utf8Len content →
        2 ≤ (splitDocumentation content maxSize).length) := by
  rcases hsp : splitRe content true with _ | ⟨s0, rest⟩
  · exact absurd hsp (splitRe_ne_nil content true)
  have hjoin : s0 ++ (rest.map (fun s => docMark ++ s)).flatten = content := by
    have hj := splitRe_join content true
    rw [hsp] at hj
    simpa [joinSecs] using hj
  have hflat := splitLoop_flatten maxSize rest [] s0
  have hmarks := splitLoop_marks maxSize rest [] s0 (by simp) (by simp)
  rcases hL : splitLoop maxSize rest [] s0 with ⟨files, cur⟩
  rw [hL] at hflat hmarks
  simp only [List.flatten_nil, List.nil_append] at hflat
  have hsd : splitDocumentation content maxSize
      = (if (if cur ≠ [] then files ++ [cur] else files) ≠ []
         then (if cur ≠ [] then files ++ [cur] else files) else [content]) := by
    simp only [splitDocumentation, hsp, hL]
  refine ⟨?_, ?_, ?_⟩
  · rw [hsd]
    by_cases hcur : cur = []
    · subst hcur
      by_cases hf : files = []
      · subst hf
        simp
      · simp only [ne_eq, not_true_eq_false, if_false, hf, not_false_eq_true, if_true]
        rw [← hjoin, ← hflat]
        simp
    · have h2 : files ++ [cur] ≠ [] := by simp
      simp only [ne_eq, hcur, not_false_eq_true, if_true, h2]
      rw [← hjoin, ← hflat]
      simp
  · rw [hsd]
    by_cases hcur : cur = []
    · subst hcur
      by_cases hf : files = []
      · subst hf
        simp
      · simp only [ne_eq, not_true_eq_false, if_false, hf, not_false_eq_true, if_true]
        exact hmarks.1
    · have h2 : files ++ [cur] ≠ [] := by simp
      simp only [ne_eq, hcur, not_false_eq_true, if_true, h2]
      intro p hp
      cases files with
      | nil =>
          simp at hp
      | cons f0 fs =>
          simp only [List.cons_append, List.drop_succ_cons, List.drop_zero] at hp
          rcases List.mem_append.mp hp with hp2 | hp2
          · exact hmarks.1 p (by simpa using hp2)
          · rw [List.mem_singleton.mp hp2]
            exact hmarks.2 (by simp)
  · intro hstarts hpos hsize
    have hstarts2 : (if s0 ≠ [] then 1 else 0) + rest.length = sectionStarts content := by
      simp [sectionStarts, hsp]
    have hone : 1 ≤ files.length ∧ cur ≠ [] := by
      by_cases hs0 : s0 = []
      · subst hs0
        rw [← hstarts2] at hstarts
        simp only [ne_eq, not_true_eq_false, if_false, Nat.zero_add] at hstarts
        rcases rest with _ | ⟨r1, rest2⟩
        · simp at hstarts
        · have hr2 : rest2 ≠ [] := by
            cases rest2
            · simp at hstarts
            · simp
          rw [splitLoop] at hL
          simp only [List.nil_append, gt_iff_lt, ne_eq, not_true_eq_false, and_false,
            if_false] at hL
          have hpush := splitLoop_push_happens maxSize rest2 [] (docMark ++ r1)
            (by simp [docMark]) hr2 (by
              rw [← hjoin] at hsize
              simpa [List.append_assoc] using hsize)
          have hcur := splitLoop_current_ne_nil maxSize rest2 [] (docMark ++ r1)
            (by simp [docMark])
          rw [hL] at hpush hcur
          exact ⟨by simpa using hpush, hcur⟩
      · have hrest : rest ≠ [] := by
          rw [← hstarts2] at hstarts
          simp only [ne_eq, hs0, not_false_eq_true, if_true] at hstarts
          cases rest
          · simp at hstarts
          · simp
        have hpush := splitLoop_push_happens maxSize rest [] s0 hs0 hrest (by
          rw [← hjoin] at hsize
          simpa using hsize)
        have hcur := splitLoop_current_ne_nil maxSize rest [] s0 hs0
        rw [hL] at hpush hcur
        exact ⟨by simpa using hpush, hcur⟩
    rw [hsd]
    have h2 : files ++ [cur] ≠ [] := by simp
    simp only [ne_eq, hone.2, not_false_eq_true, if_true, h2]
    have : (files ++ [cur]).length = files.length + 1 := by simp
    omega

/-- C7 witness: the three-start content `intro\n## A\n## B` (15 bytes) with
budget 3 splits into at least two parts — the amended theorem applied with
its hypotheses discharged concretely. -/
theorem c7_witness_two_parts :
    2 ≤ (splitDocumentation "intro\n## A\n## B".data 3).length :=
  (c7_splitDocumentation_split_properties "intro\n## A\n## B".data 3).2.2
    (by decide) (by decide) (by decide)

end SvcIndexer
